import Mathlib

/-!
# workflow-archiver-bot: the event-to-archive pipeline

A shallow embedding of `workflow-archiver.go`.  The handler is sequential code
whose only interaction with the outside is a fixed list of library calls
(JSON decoding, the GitHub client, `http.Get`, the gzip writer, the Azure blob
client, the clock and the UUID generator).  Each of those is a field of
`World`, a function from the call's arguments to what the call returns.  A run
of the handler yields the ordered list of external calls it issued together
with the way it ended: a returned `nil`, a returned error, or a nil-pointer
panic.

Logging (`zerolog`, `fmt.Printf`) is not recorded as a call; the pointer
dereferences in the arguments of a log statement are kept, since they can
panic.
-/

namespace WorkflowArchiver

/-! ## Data model -/

/-- Go `[]byte`. -/
abbrev Bytes := List Nat

/-- A non-nil Go `error`: its message, and the storage error code carried by an
`*azcore.ResponseError` in its chain, when there is one. -/
structure GoError where
  msg : String
  code : Option String
deriving DecidableEq, Repr

/-- The function `errors.Wrap(err, message)` for a non-nil `err`: the message
is prefixed, the cause stays in the chain. -/
def Wrap (err : GoError) (message : String) : GoError :=
  { msg := message ++ ": " ++ err.msg, code := err.code }

/-- Go type `github.User`, the field read by the handler. -/
structure User where
  Login : Option String
deriving DecidableEq, Repr

/-- Go type `github.Repository`, the fields read by the handler. -/
structure Repository where
  Owner : Option User
  Name : Option String
deriving DecidableEq, Repr

/-- Go type `github.WorkflowRun`, the fields read by the handler. -/
structure WorkflowRun where
  ID : Option Int
  Conclusion : Option String
deriving DecidableEq, Repr

/-- Go type `github.Installation`, the field read by the handler. -/
structure Installation where
  ID : Option Int
deriving DecidableEq, Repr

/-- Go type `github.WorkflowRunEvent`; every field is a pointer, `none` is
`nil`. -/
structure WorkflowRunEvent where
  Action : Option String
  WorkflowRun : Option WorkflowRun
  Repo : Option Repository
  Installation : Option Installation
deriving DecidableEq, Repr

/-- Go type `http.Response` as the handler uses it: the status code (never
read by the handler) and what `io.ReadAll` of the body yields. -/
structure Response where
  StatusCode : Nat
  Body : Except GoError Bytes

/-- A `time.Time`: the instant in seconds since the Unix epoch and the offset
east of UTC, in seconds, of the location the value carries. -/
structure Time where
  unix : Int
  offset : Int
deriving DecidableEq, Repr

/-- The handler value: the client creator is part of `World`. -/
structure WorkflowHandler where
  storageAccountName : String
deriving DecidableEq, Repr

/-- The external calls a run can issue, with their arguments. -/
inductive Call where
  | NewInstallationClient (installationID : Int)
  | GetWorkflowRunByID (owner repo : String) (runID : Int)
  | GetWorkflowRunLogs (owner repo : String) (runID : Int) (followRedirects : Bool)
  | HttpGet (url : String)
  | ReadAll
  | Compress (body : Bytes)
  | NewDefaultAzureCredential
  | NewClient (blobURL : String)
  | CreateContainer (containerName : String)
  | UploadBuffer (containerName blobName : String) (data : Bytes)
deriving DecidableEq, Repr

/-- What each library call returns, as a function of its arguments. -/
structure World where
  /-- The call `json.Unmarshal(payload, &event)`. -/
  Unmarshal : Bytes → Except GoError WorkflowRunEvent
  /-- Method `ClientCreator.NewInstallationClient`: `none` is a nil error. -/
  NewInstallationClient : Int → Option GoError
  GetWorkflowRunByID : String → String → Int → Except GoError WorkflowRun
  /-- Returns the log URL, already rendered by `String()`. -/
  GetWorkflowRunLogs : String → String → Int → Bool → Except GoError String
  HttpGet : String → Except GoError Response
  /-- Bytes a fresh `gzip.Writer` emits into its buffer on `Write(body)`. -/
  gzipWrite : Bytes → Except GoError Bytes
  /-- Bytes the writer emits on `Close()` after `body` was written to it. -/
  gzipClose : Bytes → Except GoError Bytes
  NewDefaultAzureCredential : Option GoError
  NewClient : String → Option GoError
  CreateContainer : String → Option GoError
  UploadBuffer : String → String → Bytes → Option GoError
  /-- The instant read by `time.Now()`. -/
  nowUnix : Int
  /-- The offset of the process's local time zone at that instant. -/
  localOffset : Int
  /-- The string form of the value `uuid.New()` returns. -/
  newUUID : String

/-- How a run ends when it does not return `nil`. -/
inductive Exit where
  | error (e : GoError)
  | panic
deriving DecidableEq, Repr

/-- A run: the calls issued, in order, and the way the run ended. -/
abbrev Eff (α : Type) := List Call × Except Exit α

namespace Eff

/-- Sequencing: the second part runs only if the first returned normally. -/
def bind {α β : Type} (m : Eff α) (f : α → Eff β) : Eff β :=
  match m.2 with
  | .error e => (m.1, .error e)
  | .ok a => (m.1 ++ (f a).1, (f a).2)

instance : Monad Eff where
  pure a := ([], .ok a)
  bind := Eff.bind

/-- Dereference of a Go pointer: a nil pointer panics. -/
def deref {α : Type} (p : Option α) : Eff α :=
  match p with
  | none => ([], .error Exit.panic)
  | some a => ([], .ok a)

/-- The statement `return err`. -/
def fail {α : Type} (e : GoError) : Eff α := ([], .error (Exit.error e))

/-- The pattern `err = f(...); if err != nil { return errors.Wrap(err, message) }`
around a part of the run: a returned error is wrapped, anything else is kept. -/
def wrapErr {α : Type} (m : Eff α) (message : String) : Eff α :=
  match m.2 with
  | .error (Exit.error err) => (m.1, .error (Exit.error (Wrap err message)))
  | r => (m.1, r)

/-- Issue a call and hand back what it returned, unexamined. -/
def call {α : Type} (c : Call) (r : α) : Eff α := ([c], .ok r)

/-- Issue a call returning `(value, err)`; a non-nil `err` is returned wrapped
with `message`. -/
def stage {α : Type} (c : Call) (r : Except GoError α) (message : String) : Eff α :=
  match r with
  | .error e => ([c], .error (Exit.error (Wrap e message)))
  | .ok a => ([c], .ok a)

/-- Issue a call returning only `err`; a non-nil `err` is returned wrapped with
`message`. -/
def stageErr (c : Call) (r : Option GoError) (message : String) : Eff Unit :=
  match r with
  | some e => ([c], .error (Exit.error (Wrap e message)))
  | none => ([c], .ok ())

end Eff

/-- The calls a run issued. -/
def trace {α : Type} (r : Eff α) : List Call := r.1

/-- The run returned `nil`. -/
def returnsNil (r : Eff Unit) : Bool :=
  match r.2 with
  | .ok _ => true
  | .error _ => false

/-- The run returned a non-nil error. -/
def returnsError (r : Eff Unit) : Bool :=
  match r.2 with
  | .error (Exit.error _) => true
  | _ => false

/-- The run ended in a nil-pointer panic. -/
def panics (r : Eff Unit) : Bool :=
  match r.2 with
  | .error Exit.panic => true
  | _ => false

/-- The call is an upload. -/
def Call.isUpload : Call → Bool
  | .UploadBuffer _ _ _ => true
  | _ => false

/-- The call is the compression stage. -/
def Call.isCompress : Call → Bool
  | .Compress _ => true
  | _ => false

/-! ## The clock and `Time.Format`

`time.Now()` yields the current instant carrying the process's local location;
`Format` renders the wall clock of the location the value carries.  The date
arithmetic is the proleptic Gregorian calendar of the Go `time` package. -/

/-- Civil date `(year, month, day)` of a day count relative to 1970-01-01. -/
def civilFromDays (days : Int) : Int × Int × Int :=
  let z := days + 719468
  let era := z / 146097
  let doe := z % 146097
  let yoe := (doe - doe / 1460 + doe / 36524 - doe / 146096) / 365
  let doy := doe - (365 * yoe + yoe / 4 - yoe / 100)
  let mp := (5 * doy + 2) / 153
  let d := doy - (153 * mp + 2) / 5 + 1
  let m := if mp < 10 then mp + 3 else mp - 9
  let y := yoe + era * 400
  (if m ≤ 2 then y + 1 else y, m, d)

/-- Day count relative to 1970-01-01 of a civil date: the inverse of
`civilFromDays`, by which distinct days have distinct dates. -/
def daysFromCivil (y m d : Int) : Int :=
  let y' := if m ≤ 2 then y - 1 else y
  let era := y' / 400
  let yoe := y' % 400
  let mp := if m > 2 then m - 3 else m + 9
  let doy := (153 * mp + 2) / 5 + d - 1
  let doe := yoe * 365 + yoe / 4 - yoe / 100 + doy
  era * 146097 + doe - 719468

/-- Seconds since the epoch on the wall clock of the value's location. -/
def Time.wall (t : Time) : Int := t.unix + t.offset

/-- Method `Time.Year`. -/
def Time.Year (t : Time) : Int := (civilFromDays (t.wall / 86400)).1

/-- Method `Time.Month`. -/
def Time.Month (t : Time) : Int := (civilFromDays (t.wall / 86400)).2.1

/-- Method `Time.Day`. -/
def Time.Day (t : Time) : Int := (civilFromDays (t.wall / 86400)).2.2

/-- Method `Time.Hour`. -/
def Time.Hour (t : Time) : Int := t.wall % 86400 / 3600

/-- Method `Time.Minute`. -/
def Time.Minute (t : Time) : Int := t.wall % 3600 / 60

/-- Method `Time.Second`. -/
def Time.Second (t : Time) : Int := t.wall % 60

/-- Method `Time.UTC`: the same instant, carrying the UTC location. -/
def Time.UTC (t : Time) : Time := { unix := t.unix, offset := 0 }

/-- The decimal digit `d` as a character. -/
def digit (d : Nat) : Char := Char.ofNat (48 + d % 10)

/-- Function `appendInt` of the `time` package: `x` in decimal, zero-padded to
`width` digits, a minus sign in front of a negative value. -/
def appendInt (x : Int) (width : Nat) : List Char :=
  let u := x.natAbs
  let sign := if x < 0 then ['-'] else []
  if width = 2 ∧ u < 100 then
    sign ++ [digit (u / 10), digit u]
  else if width = 4 ∧ u < 10000 then
    sign ++ [digit (u / 1000), digit (u / 100), digit (u / 10), digit u]
  else
    let ds := Nat.toDigits 10 u
    sign ++ List.replicate (width - ds.length) '0' ++ ds

/-- Method `Time.Format` for the layout `"20060102150405"`: four-digit year,
then two-digit month, day, hour, minute and second. -/
def Time.Format (t : Time) : String :=
  String.mk (appendInt t.Year 4 ++ appendInt t.Month 2 ++ appendInt t.Day 2
    ++ appendInt t.Hour 2 ++ appendInt t.Minute 2 ++ appendInt t.Second 2)

/-- The call `time.Now()`: the current instant in the local location. -/
def World.Now (w : World) : Time := { unix := w.nowUnix, offset := w.localOffset }

/-! ## The handler -/

/-- Method `WorkflowHandler.Handles`. -/
def Handles : List String := ["pull_request"]

/-- Function `githubapp.GetInstallationIDFromEvent`: nil-safe getters, zero
when the installation or its id is absent. -/
def GetInstallationIDFromEvent (event : WorkflowRunEvent) : Int :=
  match event.Installation with
  | none => 0
  | some i => i.ID.getD 0

/-- The constant `bloberror.ContainerAlreadyExists`. -/
def ContainerAlreadyExists : String := "ContainerAlreadyExists"

/-- Function `bloberror.HasCode`: false on a nil error and on an error that
carries no response code. -/
def HasCode (err : Option GoError) (code : String) : Bool :=
  match err with
  | none => false
  | some e => e.code == some code

/-- Function `compress`: write the whole body to a gzip writer over a fresh
buffer, close the writer, return the buffer. -/
def compress (w : World) (body : Bytes) : Except GoError Bytes :=
  match w.gzipWrite body with
  | .error err => .error err
  | .ok written =>
    match w.gzipClose body with
    | .error err => .error err
    | .ok closed => .ok (written ++ closed)

/-- The container name `fmt.Sprintf("%s-%s", orgName, repoName)`. -/
def containerNameOf (orgName repoName : String) : String :=
  orgName ++ "-" ++ repoName

/-- The blob name `fmt.Sprintf("%s-%s.log.gz", timestamp, uuid)`. -/
def blobNameOf (now : Time) (uuid : String) : String :=
  now.Format ++ "-" ++ uuid ++ ".log.gz"

/-- Method `WorkflowHandler.logToAzureBlobStorage`. -/
def logToAzureBlobStorage (w : World) (log : Response) (blobURL repoName orgName : String)
    (_workflowRunID : Int) : Eff Unit := do
  let body ← Eff.stage Call.ReadAll log.Body "failed to convert http.Response to []byte"
  let compressedBody ← Eff.stage (Call.Compress body) (compress w body) "failed to compress []byte"
  Eff.stageErr Call.NewDefaultAzureCredential w.NewDefaultAzureCredential
    "failed to get Azure credential"
  Eff.stageErr (Call.NewClient blobURL) (w.NewClient blobURL) "failed to get Azure Blob client"
  let containerName := containerNameOf orgName repoName
  let err ← Eff.call (Call.CreateContainer containerName) (w.CreateContainer containerName)
  if HasCode err ContainerAlreadyExists then
    pure ()
  else
    match err with
    | some e => Eff.fail (Wrap e "failed to create container")
    | none => pure ()
  let blobName := blobNameOf w.Now w.newUUID
  Eff.stageErr (Call.UploadBuffer containerName blobName compressedBody)
    (w.UploadBuffer containerName blobName compressedBody) "failed to upload buffer"

/-- The expression `*event.GetRepo().Owner.Login`. -/
def ownerLogin (event : WorkflowRunEvent) : Eff String := do
  let repo ← Eff.deref event.Repo
  let owner ← Eff.deref repo.Owner
  Eff.deref owner.Login

/-- The expression `*event.GetRepo().Name`. -/
def repoName (event : WorkflowRunEvent) : Eff String := do
  let repo ← Eff.deref event.Repo
  Eff.deref repo.Name

/-- The expression `*event.WorkflowRun.ID`. -/
def runID (event : WorkflowRunEvent) : Eff Int := do
  let run ← Eff.deref event.WorkflowRun
  Eff.deref run.ID

/-- Method `WorkflowHandler.Handle`. -/
def Handle (w : World) (h : WorkflowHandler) (payload : Bytes) : Eff Unit :=
  match w.Unmarshal payload with
  | .error err => Eff.fail (Wrap err "failed to parse workflow run event")
  | .ok event => do
    let installationID := GetInstallationIDFromEvent event
    let action ← Eff.deref event.Action
    if action ≠ "completed" then
      let _ ← runID event
      pure ()
    else
      match ← Eff.call (Call.NewInstallationClient installationID)
          (w.NewInstallationClient installationID) with
      | some err => Eff.fail err
      | none => pure ()
      let owner ← ownerLogin event
      let repo ← repoName event
      let id ← runID event
      let workflowRun ← Eff.stage (Call.GetWorkflowRunByID owner repo id)
        (w.GetWorkflowRunByID owner repo id) "failed to get workflow run"
      let _ ← Eff.deref workflowRun.Conclusion
      let owner ← ownerLogin event
      let repo ← repoName event
      let id ← runID event
      let logURL ← Eff.stage (Call.GetWorkflowRunLogs owner repo id true)
        (w.GetWorkflowRunLogs owner repo id true) "failed to get workflow run log URL"
      let log ← Eff.stage (Call.HttpGet logURL) (w.HttpGet logURL)
        "failed to get workflow run logs"
      let blobURL := "https://" ++ h.storageAccountName ++ ".blob.core.windows.net/"
      let repo ← repoName event
      let owner ← ownerLogin event
      let id ← runID event
      Eff.wrapErr (logToAzureBlobStorage w log blobURL repo owner id)
        "failed to log to Azure Blob Storage"

/-! ## Vocabulary of the properties -/

/-- The event carries every required field (`action`, `repository.owner.login`,
`repository.name`, `workflow_run.id`). -/
def HasRequiredFields (ev : WorkflowRunEvent) (a o r : String) (id : Int) : Prop :=
  ev.Action = some a ∧
  (∃ repo owner, ev.Repo = some repo ∧ repo.Owner = some owner ∧ owner.Login = some o ∧
    repo.Name = some r) ∧
  ∃ run, ev.WorkflowRun = some run ∧ run.ID = some id

/-- A completed-run event of repository `o/r` and run `id`. -/
def CompletedRunEvent (ev : WorkflowRunEvent) (o r : String) (id : Int) : Prop :=
  HasRequiredFields ev "completed" o r id

/-- The storage endpoint `fmt.Sprintf("https://%s.blob.core.windows.net/", ...)`
built in `Handle`. -/
def blobURLOf (h : WorkflowHandler) : String :=
  "https://" ++ h.storageAccountName ++ ".blob.core.windows.net/"

/-- What `Handle` does once the installation client exists, for an event whose
required fields are `o`, `r` and `id`: the same statements with the event's
pointers already dereferenced. -/
def afterClient (w : World) (h : WorkflowHandler) (o r : String) (id : Int) : Eff Unit := do
  let workflowRun ← Eff.stage (Call.GetWorkflowRunByID o r id)
    (w.GetWorkflowRunByID o r id) "failed to get workflow run"
  let _ ← Eff.deref workflowRun.Conclusion
  let logURL ← Eff.stage (Call.GetWorkflowRunLogs o r id true)
    (w.GetWorkflowRunLogs o r id true) "failed to get workflow run log URL"
  let log ← Eff.stage (Call.HttpGet logURL) (w.HttpGet logURL)
    "failed to get workflow run logs"
  Eff.wrapErr (logToAzureBlobStorage w log (blobURLOf h) r o id)
    "failed to log to Azure Blob Storage"

/-- Every external stage before the upload succeeded for the completed-run
event of `o/r` and run `id`, container creation counting as succeeded when it
reports `ContainerAlreadyExists`; `body` is the log body read in full and `cb`
what `compress` returned for it. -/
def StagesBeforeUploadSucceed (w : World) (h : WorkflowHandler) (ev : WorkflowRunEvent)
    (o r : String) (id : Int) (body cb : Bytes) : Prop :=
  w.NewInstallationClient (GetInstallationIDFromEvent ev) = none ∧
  ∃ run url log,
    w.GetWorkflowRunByID o r id = .ok run ∧
    w.GetWorkflowRunLogs o r id true = .ok url ∧
    w.HttpGet url = .ok log ∧
    log.Body = .ok body ∧
    compress w body = .ok cb ∧
    w.NewDefaultAzureCredential = none ∧
    w.NewClient (blobURLOf h) = none ∧
    (w.CreateContainer (containerNameOf o r) = none ∨
      ∃ e, w.CreateContainer (containerNameOf o r) = some e ∧
        e.code = some ContainerAlreadyExists)

/-- Every external stage succeeded, the upload included. -/
def AllStagesSucceed (w : World) (h : WorkflowHandler) (ev : WorkflowRunEvent)
    (o r : String) (id : Int) (body cb : Bytes) : Prop :=
  StagesBeforeUploadSucceed w h ev o r id body cb ∧
  w.UploadBuffer (containerNameOf o r) (blobNameOf w.Now w.newUUID) cb = none

/-- How the upload call ends the storage stage. -/
def uploadResult (w : World) (containerName : String) (data : Bytes) : Except Exit Unit :=
  match w.UploadBuffer containerName (blobNameOf w.Now w.newUUID) data with
  | some e => .error (Exit.error (Wrap e "failed to upload buffer"))
  | none => .ok ()

/-- The container a storage call addresses. -/
def Call.containerOf : Call → Option String
  | .CreateContainer n => some n
  | .UploadBuffer n _ _ => some n
  | _ => none

/-- The same world with the status code of every HTTP response replaced. -/
def World.withStatus (w : World) (f : Nat → Nat) : World :=
  { w with
    HttpGet := fun url =>
      match w.HttpGet url with
      | .error e => .error e
      | .ok log => .ok { log with StatusCode := f log.StatusCode } }

/-- A character of the class `[0-9a-f-]`. -/
def isUUIDChar (c : Char) : Bool :=
  c.isDigit || ('a' ≤ c && c ≤ 'f') || c == '-'

/-- A UUID in canonical string form, as far as the blob-name pattern looks:
36 characters, each a lowercase hexadecimal digit or a hyphen. -/
def CanonicalUUID (uuid : String) : Prop :=
  uuid.toList.length = 36 ∧ ∀ c ∈ uuid.toList, isUUIDChar c = true

/-- The pattern `^\d{14}-[0-9a-f-]{36}\.log\.gz$`. -/
def matchesBlobPattern (s : String) : Bool :=
  s.toList.length == 58 &&
  (s.toList.take 14).all Char.isDigit &&
  (s.toList.drop 14).take 1 == ['-'] &&
  ((s.toList.drop 15).take 36).all isUUIDChar &&
  s.toList.drop 51 == ".log.gz".toList

/-- The string has no uppercase letter. -/
def noUpper (s : String) : Prop := ∀ c ∈ s.toList, c.isUpper = false

/-! ## Concrete events and worlds -/

/-- The event `{action:"completed", repository:{owner:"acme", name:"widgets"},
workflow_run:{id:42}}`. -/
def acmeEvent : WorkflowRunEvent :=
  { Action := some "completed"
    WorkflowRun := some { ID := some 42, Conclusion := none }
    Repo := some { Owner := some { Login := some "acme" }, Name := some "widgets" }
    Installation := some { ID := some 7 } }

/-- The bytes of `hello world`. -/
def helloWorld : Bytes := [104, 101, 108, 108, 111, 32, 119, 111, 114, 108, 100]

/-- A world in which every payload decodes to `ev`, the run lookup returns
`run`, the log download answers with status `status` and body `hello world`,
and every call succeeds. -/
def happyWorld (ev : WorkflowRunEvent) (run : WorkflowRun) (status : Nat) : World :=
  { Unmarshal := fun _ => .ok ev
    NewInstallationClient := fun _ => none
    GetWorkflowRunByID := fun _ _ _ => .ok run
    GetWorkflowRunLogs := fun _ _ _ _ => .ok "https://logs.example/42"
    HttpGet := fun _ => .ok { StatusCode := status, Body := .ok helloWorld }
    gzipWrite := fun _ => .ok [31, 139, 8, 0, 0, 0, 0, 0, 0, 255]
    gzipClose := fun body => .ok (body ++ [0, 0, 0, 0])
    NewDefaultAzureCredential := none
    NewClient := fun _ => none
    CreateContainer := fun _ => none
    UploadBuffer := fun _ _ _ => none
    nowUnix := 1700000000
    localOffset := 3600
    newUUID := "123e4567-e89b-12d3-a456-426614174000" }

/-- A run record with conclusion `success`. -/
def successRun : WorkflowRun := { ID := some 42, Conclusion := some "success" }

/-- The handler of the examples. -/
def archiver : WorkflowHandler := { storageAccountName := "archive" }

/-! ## Sequencing lemmas -/

theorem bind_ok {α β : Type} (t : List Call) (a : α) (f : α → Eff β) :
    Eff.bind (t, Except.ok a) f = (t ++ (f a).1, (f a).2) := rfl

theorem bind_error {α β : Type} (t : List Call) (e : Exit) (f : α → Eff β) :
    Eff.bind ((t, Except.error e) : Eff α) f = (t, Except.error e) := rfl

theorem bind_congr {α β : Type} (m : Eff α) (f g : α → Eff β) (hfg : ∀ a, f a = g a) :
    Eff.bind m f = Eff.bind m g := by
  have : f = g := funext hfg
  rw [this]

/-- A non-completed event with an action and a run id: nothing is called. -/
theorem Handle_other_action (w : World) (h : WorkflowHandler) (payload : Bytes)
    (ev : WorkflowRunEvent) (a : String) (run : WorkflowRun) (id : Int)
    (hparse : w.Unmarshal payload = .ok ev) (hact : ev.Action = some a) (hne : a ≠ "completed")
    (hrun : ev.WorkflowRun = some run) (hid : run.ID = some id) :
    Handle w h payload = ([], .ok ()) := by
  simp [Handle, hparse, hact, hne, runID, hrun, hid, Bind.bind, Pure.pure, Eff.deref, bind_ok]

/-- For a completed-run event `Handle` is the client creation followed by
`afterClient`. -/
theorem Handle_completed_eq (w : World) (h : WorkflowHandler) (payload : Bytes)
    (ev : WorkflowRunEvent) (o r : String) (id : Int)
    (hparse : w.Unmarshal payload = .ok ev) (hev : CompletedRunEvent ev o r id) :
    Handle w h payload =
      match w.NewInstallationClient (GetInstallationIDFromEvent ev) with
      | some err => ([Call.NewInstallationClient (GetInstallationIDFromEvent ev)],
          .error (Exit.error err))
      | none =>
        (Call.NewInstallationClient (GetInstallationIDFromEvent ev) :: (afterClient w h o r id).1,
          (afterClient w h o r id).2) := by
  obtain ⟨hact, ⟨repo, owner, hrepo, howner, hlogin, hname⟩, run, hrun, hid⟩ := hev
  cases hc : w.NewInstallationClient (GetInstallationIDFromEvent ev) with
  | some err =>
    simp [Handle, hparse, hact, hc, Bind.bind, Pure.pure, Eff.deref, Eff.call, Eff.fail,
      bind_ok, bind_error]
  | none =>
    simp only [Handle, hparse, hact, hc, Bind.bind, Pure.pure, Eff.deref, Eff.call, Eff.fail,
      bind_ok, bind_error, ownerLogin, repoName, runID, hrepo, howner, hlogin, hname, hrun, hid,
      afterClient, blobURLOf]
    simp

/-- The storage stage in closed form, by the outcome of each call. -/
theorem logToAzureBlobStorage_eq (w : World) (log : Response) (blobURL repoName orgName : String)
    (id : Int) :
    logToAzureBlobStorage w log blobURL repoName orgName id =
      match log.Body with
      | .error e => ([Call.ReadAll],
          .error (Exit.error (Wrap e "failed to convert http.Response to []byte")))
      | .ok body =>
        match compress w body with
        | .error e => ([Call.ReadAll, Call.Compress body],
            .error (Exit.error (Wrap e "failed to compress []byte")))
        | .ok cb =>
          match w.NewDefaultAzureCredential with
          | some e => ([Call.ReadAll, Call.Compress body, Call.NewDefaultAzureCredential],
              .error (Exit.error (Wrap e "failed to get Azure credential")))
          | none =>
            match w.NewClient blobURL with
            | some e => ([Call.ReadAll, Call.Compress body, Call.NewDefaultAzureCredential,
                Call.NewClient blobURL],
                .error (Exit.error (Wrap e "failed to get Azure Blob client")))
            | none =>
              match w.CreateContainer (containerNameOf orgName repoName) with
              | none =>
                ([Call.ReadAll, Call.Compress body, Call.NewDefaultAzureCredential,
                  Call.NewClient blobURL, Call.CreateContainer (containerNameOf orgName repoName),
                  Call.UploadBuffer (containerNameOf orgName repoName)
                    (blobNameOf w.Now w.newUUID) cb],
                  uploadResult w (containerNameOf orgName repoName) cb)
              | some e =>
                if e.code = some ContainerAlreadyExists then
                  ([Call.ReadAll, Call.Compress body, Call.NewDefaultAzureCredential,
                    Call.NewClient blobURL,
                    Call.CreateContainer (containerNameOf orgName repoName),
                    Call.UploadBuffer (containerNameOf orgName repoName)
                      (blobNameOf w.Now w.newUUID) cb],
                    uploadResult w (containerNameOf orgName repoName) cb)
                else
                  ([Call.ReadAll, Call.Compress body, Call.NewDefaultAzureCredential,
                    Call.NewClient blobURL,
                    Call.CreateContainer (containerNameOf orgName repoName)],
                    .error (Exit.error (Wrap e "failed to create container"))) := by
  unfold logToAzureBlobStorage uploadResult
  cases hb : log.Body with
  | error e => simp [Bind.bind, Eff.stage, bind_error]
  | ok body =>
    cases hc : compress w body with
    | error e => simp [Bind.bind, Eff.stage, bind_error, bind_ok, hc]
    | ok cb =>
      cases hk : w.NewDefaultAzureCredential with
      | some e => simp [Bind.bind, Eff.stage, Eff.stageErr, bind_error, bind_ok, hc, hk]
      | none =>
        cases hn : w.NewClient blobURL with
        | some e => simp [Bind.bind, Eff.stage, Eff.stageErr, bind_error, bind_ok, hc, hk, hn]
        | none =>
          cases hcc : w.CreateContainer (containerNameOf orgName repoName) with
          | none =>
            cases hu : w.UploadBuffer (containerNameOf orgName repoName)
                (blobNameOf w.Now w.newUUID) cb <;>
              simp [Bind.bind, Pure.pure, Eff.stage, Eff.stageErr, Eff.call, Eff.fail, bind_error,
                bind_ok, hc, hk, hn, hcc, hu, HasCode]
          | some e =>
            by_cases hh : e.code = some ContainerAlreadyExists
            · cases hu : w.UploadBuffer (containerNameOf orgName repoName)
                  (blobNameOf w.Now w.newUUID) cb <;>
                simp [Bind.bind, Pure.pure, Eff.stage, Eff.stageErr, Eff.call, Eff.fail,
                  bind_error, bind_ok, hc, hk, hn, hcc, hu, HasCode, hh]
            · simp [Bind.bind, Pure.pure, Eff.stage, Eff.stageErr, Eff.call, Eff.fail,
                  bind_error, bind_ok, hc, hk, hn, hcc, HasCode, hh]

/-! ## Event validation -/

/-- C2. A payload that decodes to an event carrying every required field and
an action other than `completed` makes `Handle` return `nil` without issuing a
single call: no installation client, no run or log-URL lookup, no HTTP fetch,
no compression, no container creation, no upload. -/
theorem Handle_not_completed_is_noop (w : World) (h : WorkflowHandler) (payload : Bytes)
    (ev : WorkflowRunEvent) (a o r : String) (id : Int)
    (hparse : w.Unmarshal payload = .ok ev) (hev : HasRequiredFields ev a o r id)
    (hne : a ≠ "completed") :
    returnsNil (Handle w h payload) = true ∧ trace (Handle w h payload) = [] := by
  obtain ⟨hact, _, run, hrun, hid⟩ := hev
  rw [Handle_other_action w h payload ev a run id hparse hact hne hrun hid]
  exact ⟨rfl, rfl⟩

/-- The event of repository `acme/widgets` with the action `requested`. -/
theorem Handle_not_completed_is_noop_witness :
    returnsNil (Handle (happyWorld { acmeEvent with Action := some "requested" } successRun 200)
      archiver []) = true ∧
    trace (Handle (happyWorld { acmeEvent with Action := some "requested" } successRun 200)
      archiver []) = [] :=
  Handle_not_completed_is_noop _ archiver [] { acmeEvent with Action := some "requested" }
    "requested" "acme" "widgets" 42 rfl
    ⟨rfl, ⟨_, _, rfl, rfl, rfl, rfl⟩, _, rfl, rfl⟩ (by decide)

/-- An event without `workflow_run.id` never makes `Handle` return `nil`, and
the only error `Handle` can return for it is the error of the installation
client creation, after that call was issued; in every other case the run ends
in a panic. -/
theorem Handle_missing_run_id (w : World) (h : WorkflowHandler) (payload : Bytes)
    (ev : WorkflowRunEvent) (hparse : w.Unmarshal payload = .ok ev)
    (hid : ev.WorkflowRun = none ∨ ∃ run, ev.WorkflowRun = some run ∧ run.ID = none) :
    returnsNil (Handle w h payload) = false ∧
    (returnsError (Handle w h payload) = true →
      trace (Handle w h payload) =
        [Call.NewInstallationClient (GetInstallationIDFromEvent ev)] ∧
      ∃ e, w.NewInstallationClient (GetInstallationIDFromEvent ev) = some e) ∧
    (returnsError (Handle w h payload) = false → panics (Handle w h payload) = true) := by
  have hrun : runID ev = ([], .error Exit.panic) := by
    rcases hid with hnone | ⟨run, hsome, hnone⟩
    · simp [runID, hnone, Bind.bind, Eff.deref, bind_error]
    · simp [runID, hsome, hnone, Bind.bind, Eff.deref, bind_ok]
  unfold Handle
  simp only [hparse, Bind.bind]
  cases hact : ev.Action with
  | none => simp [Eff.deref, bind_error, returnsNil, returnsError, panics]
  | some a =>
    by_cases hc : a ≠ "completed"
    · simp [Eff.deref, bind_ok, bind_error, hc, hrun, returnsNil, returnsError, panics]
    · have hc : a = "completed" := not_not.mp hc
      cases hnic : w.NewInstallationClient (GetInstallationIDFromEvent ev) with
      | some e =>
        simp [Eff.deref, Eff.call, Eff.fail, bind_ok, bind_error, hc, hnic, returnsNil,
          returnsError, panics, trace]
      | none =>
        have hol : (ownerLogin ev).2 = .error Exit.panic ∨ ∃ o, ownerLogin ev = ([], .ok o) := by
          unfold ownerLogin
          rcases ev.Repo with _ | ⟨_ | ⟨_ | l⟩, n⟩ <;>
            simp [Bind.bind, Eff.deref, bind_ok, bind_error]
        have hrn : (repoName ev).2 = .error Exit.panic ∨ ∃ o, repoName ev = ([], .ok o) := by
          unfold repoName
          rcases ev.Repo with _ | ⟨ow, _ | n⟩ <;>
            simp [Bind.bind, Eff.deref, bind_ok, bind_error]
        have hol1 : (ownerLogin ev).1 = [] := by
          unfold ownerLogin
          rcases ev.Repo with _ | ⟨_ | ⟨_ | l⟩, n⟩ <;>
            simp [Bind.bind, Eff.deref, bind_ok, bind_error]
        have hrn1 : (repoName ev).1 = [] := by
          unfold repoName
          rcases ev.Repo with _ | ⟨ow, _ | n⟩ <;>
            simp [Bind.bind, Eff.deref, bind_ok, bind_error]
        rcases hol with hol | ⟨o, hol⟩
        · generalize ownerLogin ev = ol at hol hol1
          obtain ⟨t, res⟩ := ol
          simp only at hol hol1
          subst hol hol1
          simp [Eff.deref, Eff.call, Pure.pure, bind_ok, bind_error, hc, hnic, returnsNil,
            returnsError, panics, trace]
        · rcases hrn with hrn | ⟨r, hrn⟩
          · generalize repoName ev = rn at hrn hrn1
            obtain ⟨t, res⟩ := rn
            simp only at hrn hrn1
            subst hrn hrn1
            simp [Eff.deref, Eff.call, Pure.pure, bind_ok, bind_error, hc, hnic, hol, returnsNil,
              returnsError, panics, trace]
          · simp [Eff.deref, Eff.call, Pure.pure, bind_ok, bind_error, hc, hnic, hol, hrn, hrun,
              returnsNil, returnsError, panics, trace]

/-- C1. The payload `{"action":"completed","repository":{"name":"widgets",
"owner":{"login":"acme"}},"installation":{"id":7}}` is well-formed and has no
`workflow_run`: `Handle` creates the installation client and then panics on
`*event.WorkflowRun.ID`; it returns no error.  With the action `requested`
instead it panics before any call. -/
theorem Handle_missing_run_id_panics :
    panics (Handle (happyWorld { acmeEvent with WorkflowRun := none } successRun 200)
      archiver []) = true ∧
    returnsError (Handle (happyWorld { acmeEvent with WorkflowRun := none } successRun 200)
      archiver []) = false ∧
    trace (Handle (happyWorld { acmeEvent with WorkflowRun := none } successRun 200)
      archiver []) = [Call.NewInstallationClient 7] ∧
    panics (Handle (happyWorld { acmeEvent with Action := some "requested", WorkflowRun := none }
      successRun 200) archiver []) = true := by
  refine ⟨?_, ?_, ?_, ?_⟩ <;> rfl

/-- C5. The handler registers for `pull_request` deliveries and for nothing
else; the workflow-run event type `workflow_run` is not in the list. -/
theorem Handles_is_pull_request :
    Handles = ["pull_request"] ∧ "workflow_run" ∉ Handles := by
  refine ⟨rfl, ?_⟩
  decide


/-! ## The storage stage -/

/-- C8. In `logToAzureBlobStorage`, once the body is read and compressed and
the credential and client exist: a container creation that reports
`ContainerAlreadyExists` is followed by exactly one upload, whose outcome is the
outcome of the function; a container creation that reports any other error
makes the function return an error without an upload (whatever the earlier
stages did); and whether the container was created or already existed, a
successful upload makes the function return `nil`. -/
theorem logToAzureBlobStorage_container_step (w : World) (log : Response)
    (blobURL repoName orgName : String) (id : Int) (body cb : Bytes)
    (hbody : log.Body = .ok body) (hcomp : compress w body = .ok cb)
    (hcred : w.NewDefaultAzureCredential = none) (hclient : w.NewClient blobURL = none) :
    (∀ e, w.CreateContainer (containerNameOf orgName repoName) = some e →
      e.code = some ContainerAlreadyExists →
      (trace (logToAzureBlobStorage w log blobURL repoName orgName id)).filter Call.isUpload =
        [Call.UploadBuffer (containerNameOf orgName repoName) (blobNameOf w.Now w.newUUID) cb] ∧
      (returnsNil (logToAzureBlobStorage w log blobURL repoName orgName id) = true ↔
        w.UploadBuffer (containerNameOf orgName repoName) (blobNameOf w.Now w.newUUID) cb
          = none)) ∧
    (∀ e, w.CreateContainer (containerNameOf orgName repoName) = some e →
      e.code ≠ some ContainerAlreadyExists →
      returnsError (logToAzureBlobStorage w log blobURL repoName orgName id) = true ∧
      ∀ c ∈ trace (logToAzureBlobStorage w log blobURL repoName orgName id),
        c.isUpload = false) ∧
    ((w.CreateContainer (containerNameOf orgName repoName) = none ∨
        ∃ e, w.CreateContainer (containerNameOf orgName repoName) = some e ∧
          e.code = some ContainerAlreadyExists) →
      w.UploadBuffer (containerNameOf orgName repoName) (blobNameOf w.Now w.newUUID) cb = none →
      returnsNil (logToAzureBlobStorage w log blobURL repoName orgName id) = true) := by
  rw [logToAzureBlobStorage_eq]
  simp only [hbody, hcomp, hcred, hclient]
  refine ⟨?_, ?_, ?_⟩
  · intro e he hcode
    simp only [he, hcode, if_true, trace]
    refine ⟨by simp [Call.isUpload], ?_⟩
    unfold returnsNil uploadResult
    cases hu : w.UploadBuffer (containerNameOf orgName repoName) (blobNameOf w.Now w.newUUID) cb <;>
      simp
  · intro e he hcode
    simp only [he, hcode, if_false, trace]
    refine ⟨rfl, ?_⟩
    intro c hc
    simp at hc
    rcases hc with rfl | rfl | rfl | rfl | rfl <;> rfl
  · intro hcreate hu
    rcases hcreate with hnone | ⟨e, he, hcode⟩
    · simp [hnone, returnsNil, uploadResult, hu]
    · simp [he, hcode, returnsNil, uploadResult, hu]

/-- A store in which the container `acme-widgets` exists already. -/
theorem logToAzureBlobStorage_container_step_witness :
    returnsNil (logToAzureBlobStorage
      { happyWorld acmeEvent successRun 200 with
        CreateContainer := fun _ => some ⟨"exists", some ContainerAlreadyExists⟩ }
      { StatusCode := 200, Body := .ok helloWorld }
      "https://archive.blob.core.windows.net/" "widgets" "acme" 42) = true :=
  (logToAzureBlobStorage_container_step
    { happyWorld acmeEvent successRun 200 with
      CreateContainer := fun _ => some ⟨"exists", some ContainerAlreadyExists⟩ }
    { StatusCode := 200, Body := .ok helloWorld }
    "https://archive.blob.core.windows.net/" "widgets" "acme" 42 helloWorld
    ([31, 139, 8, 0, 0, 0, 0, 0, 0, 255] ++ (helloWorld ++ [0, 0, 0, 0]))
    rfl rfl rfl rfl).2.2 (Or.inr ⟨_, rfl, rfl⟩) rfl

/-! ## The pipeline of a completed run -/

/-- C3. A completed-run event for which every external call succeeds, the run
lookup returning a record without a conclusion: `Handle` panics on
`*workflowRun.Conclusion` after the run lookup; it neither returns `nil` nor an
error, and no upload was issued. -/
theorem Handle_nil_conclusion_panics :
    panics (Handle (happyWorld acmeEvent { ID := some 42, Conclusion := none } 200)
      archiver []) = true ∧
    returnsNil (Handle (happyWorld acmeEvent { ID := some 42, Conclusion := none } 200)
      archiver []) = false ∧
    returnsError (Handle (happyWorld acmeEvent { ID := some 42, Conclusion := none } 200)
      archiver []) = false ∧
    trace (Handle (happyWorld acmeEvent { ID := some 42, Conclusion := none } 200)
      archiver []) =
      [Call.NewInstallationClient 7, Call.GetWorkflowRunByID "acme" "widgets" 42] := by
  refine ⟨?_, ?_, ?_, ?_⟩ <;> rfl

/-- C4, as stated, fails: the log download answers 404 with the body
`hello world`; `Handle` returns `nil`, and the body was compressed and
uploaded. -/
theorem Handle_archives_404_body :
    returnsNil (Handle (happyWorld acmeEvent successRun 404) archiver []) = true ∧
    Call.Compress helloWorld ∈ trace (Handle (happyWorld acmeEvent successRun 404) archiver []) ∧
    Call.UploadBuffer "acme-widgets" "20231114231320-123e4567-e89b-12d3-a456-426614174000.log.gz"
      ([31, 139, 8, 0, 0, 0, 0, 0, 0, 255] ++ (helloWorld ++ [0, 0, 0, 0]))
      ∈ trace (Handle (happyWorld acmeEvent successRun 404) archiver []) := by
  refine ⟨rfl, ?_, ?_⟩ <;> decide


/-- The storage stage reads neither the status code nor the HTTP oracle. -/
theorem logToAzureBlobStorage_withStatus (w : World) (f : Nat → Nat) (log : Response) (s : Nat)
    (blobURL repoName orgName : String) (id : Int) :
    logToAzureBlobStorage (w.withStatus f) { log with StatusCode := s } blobURL repoName orgName id
      = logToAzureBlobStorage w log blobURL repoName orgName id := rfl

/-- The fetch stage followed by any continuation blind to the status code. -/
theorem stage_withStatus {β : Type} (w : World) (f : Nat → Nat) (url message : String)
    (k k' : Response → Eff β)
    (hk : ∀ log, k' { log with StatusCode := f log.StatusCode } = k log) :
    Eff.bind (Eff.stage (Call.HttpGet url) ((w.withStatus f).HttpGet url) message) k' =
      Eff.bind (Eff.stage (Call.HttpGet url) (w.HttpGet url) message) k := by
  simp only [World.withStatus]
  cases w.HttpGet url with
  | error e => rfl
  | ok log => simp [Eff.stage, bind_ok, hk]

theorem pure_bind {α β : Type} (a : α) (k : α → Eff β) : Eff.bind (pure a) k = k a := by
  simp [Pure.pure, bind_ok]

/-- The handler never looks at the status code of the log download. -/
theorem Handle_withStatus (w : World) (h : WorkflowHandler) (payload : Bytes) (f : Nat → Nat) :
    Handle (w.withStatus f) h payload = Handle w h payload := by
  unfold Handle
  show (match w.Unmarshal payload with
    | .error err => _
    | .ok event => _) = _
  cases w.Unmarshal payload with
  | error e => rfl
  | ok ev =>
    simp only [Bind.bind]
    refine bind_congr _ _ _ (fun action => ?_)
    by_cases hc : action ≠ "completed"
    · rw [if_pos hc, if_pos hc]
    · simp only [hc, if_false]
      refine bind_congr _ _ _ (fun x => ?_)
      cases x with
      | some err => simp only [Eff.fail, bind_error]
      | none =>
        simp only [pure_bind]
        repeat refine bind_congr _ _ _ (fun _ => ?_)
        exact stage_withStatus w f _ _ _ _ (fun log => rfl)

theorem wrapErr_fst {α : Type} (m : Eff α) (message : String) :
    (Eff.wrapErr m message).1 = m.1 := by
  unfold Eff.wrapErr
  split <;> rfl

/-- The part of `Handle` after client creation in closed form, by the outcome
of each call. -/
theorem afterClient_eq (w : World) (h : WorkflowHandler) (o r : String) (id : Int) :
    afterClient w h o r id =
      match w.GetWorkflowRunByID o r id with
      | .error e => ([Call.GetWorkflowRunByID o r id],
          .error (Exit.error (Wrap e "failed to get workflow run")))
      | .ok run =>
        match run.Conclusion with
        | none => ([Call.GetWorkflowRunByID o r id], .error Exit.panic)
        | some _ =>
          match w.GetWorkflowRunLogs o r id true with
          | .error e => ([Call.GetWorkflowRunByID o r id, Call.GetWorkflowRunLogs o r id true],
              .error (Exit.error (Wrap e "failed to get workflow run log URL")))
          | .ok url =>
            match w.HttpGet url with
            | .error e => ([Call.GetWorkflowRunByID o r id, Call.GetWorkflowRunLogs o r id true,
                Call.HttpGet url],
                .error (Exit.error (Wrap e "failed to get workflow run logs")))
            | .ok log =>
              (Call.GetWorkflowRunByID o r id :: Call.GetWorkflowRunLogs o r id true ::
                Call.HttpGet url :: (logToAzureBlobStorage w log (blobURLOf h) r o id).1,
                (Eff.wrapErr (logToAzureBlobStorage w log (blobURLOf h) r o id)
                  "failed to log to Azure Blob Storage").2) := by
  unfold afterClient
  cases h1 : w.GetWorkflowRunByID o r id with
  | error e => simp [Bind.bind, Eff.stage, bind_error]
  | ok run =>
    cases h2 : run.Conclusion with
    | none => simp [Bind.bind, Eff.stage, Eff.deref, bind_error, bind_ok, h2]
    | some c =>
      cases h3 : w.GetWorkflowRunLogs o r id true with
      | error e => simp [Bind.bind, Eff.stage, Eff.deref, bind_error, bind_ok, h2, h3]
      | ok url =>
        cases h4 : w.HttpGet url with
        | error e => simp [Bind.bind, Eff.stage, Eff.deref, bind_error, bind_ok, h2, h3, h4]
        | ok log =>
          simp [Bind.bind, Eff.stage, Eff.deref, bind_error, bind_ok, h2, h3, h4, wrapErr_fst]

/-- Every storage call of the storage stage addresses the container
`orgName-repoName`, and every upload carries the generated blob name. -/
theorem logToAzureBlobStorage_calls (w : World) (log : Response)
    (blobURL repoName orgName : String) (id : Int) :
    ∀ c ∈ (logToAzureBlobStorage w log blobURL repoName orgName id).1,
      (∀ n, c.containerOf = some n → n = containerNameOf orgName repoName) ∧
      (∀ n b d, c = Call.UploadBuffer n b d → b = blobNameOf w.Now w.newUUID) := by
  rw [logToAzureBlobStorage_eq]
  intro c hc
  split at hc
  · simp at hc; subst hc; simp [Call.containerOf]
  · split at hc
    · simp at hc; rcases hc with rfl | rfl <;> simp [Call.containerOf]
    · split at hc
      · simp at hc; rcases hc with rfl | rfl | rfl <;> simp [Call.containerOf]
      · split at hc
        · simp at hc; rcases hc with rfl | rfl | rfl | rfl <;> simp [Call.containerOf]
        · split at hc
          · simp at hc
            rcases hc with rfl | rfl | rfl | rfl | rfl | rfl <;> simp [Call.containerOf]
          · split at hc
            · simp at hc
              rcases hc with rfl | rfl | rfl | rfl | rfl | rfl <;> simp [Call.containerOf]
            · simp at hc
              rcases hc with rfl | rfl | rfl | rfl | rfl <;> simp [Call.containerOf]

/-- Every storage call of a completed run addresses the container
`owner-repo`, and every upload carries the generated blob name. -/
theorem Handle_storage_calls (w : World) (h : WorkflowHandler) (payload : Bytes)
    (ev : WorkflowRunEvent) (o r : String) (id : Int)
    (hparse : w.Unmarshal payload = .ok ev) (hev : CompletedRunEvent ev o r id) :
    ∀ c ∈ trace (Handle w h payload),
      (∀ n, c.containerOf = some n → n = containerNameOf o r) ∧
      (∀ n b d, c = Call.UploadBuffer n b d → b = blobNameOf w.Now w.newUUID) := by
  rw [Handle_completed_eq w h payload ev o r id hparse hev, afterClient_eq]
  intro c hc
  unfold trace at hc
  split at hc
  · simp at hc; subst hc; simp [Call.containerOf]
  · simp only [List.mem_cons] at hc
    rcases hc with rfl | hc
    · simp [Call.containerOf]
    · split at hc
      · simp at hc; subst hc; simp [Call.containerOf]
      · split at hc
        · simp at hc; subst hc; simp [Call.containerOf]
        · split at hc
          · simp at hc; rcases hc with rfl | rfl <;> simp [Call.containerOf]
          · split at hc
            · simp at hc; rcases hc with rfl | rfl | rfl <;> simp [Call.containerOf]
            · simp only [List.mem_cons] at hc
              rcases hc with rfl | rfl | rfl | hc
              · simp [Call.containerOf]
              · simp [Call.containerOf]
              · simp [Call.containerOf]
              · exact logToAzureBlobStorage_calls w _ _ _ _ _ c hc

/-- The storage stage issues an upload only after every earlier call of the
stage succeeded, and the upload carries the compressed body. -/
theorem logToAzureBlobStorage_upload (w : World) (log : Response)
    (blobURL repoName orgName : String) (id : Int) :
    ∀ c ∈ (logToAzureBlobStorage w log blobURL repoName orgName id).1, c.isUpload = true →
      ∃ body cb, log.Body = .ok body ∧ compress w body = .ok cb ∧
        w.NewDefaultAzureCredential = none ∧ w.NewClient blobURL = none ∧
        (w.CreateContainer (containerNameOf orgName repoName) = none ∨
          ∃ e, w.CreateContainer (containerNameOf orgName repoName) = some e ∧
            e.code = some ContainerAlreadyExists) ∧
        c = Call.UploadBuffer (containerNameOf orgName repoName) (blobNameOf w.Now w.newUUID)
          cb := by
  rw [logToAzureBlobStorage_eq]
  intro c hc hup
  cases hb : log.Body with
  | error e =>
    simp only [hb] at hc; simp at hc; subst hc; simp [Call.isUpload] at hup
  | ok body =>
    cases hcomp : compress w body with
    | error e =>
      simp only [hb, hcomp] at hc; simp at hc
      rcases hc with rfl | rfl <;> simp [Call.isUpload] at hup
    | ok cb =>
      cases hk : w.NewDefaultAzureCredential with
      | some e =>
        simp only [hb, hcomp, hk] at hc; simp at hc
        rcases hc with rfl | rfl | rfl <;> simp [Call.isUpload] at hup
      | none =>
        cases hn : w.NewClient blobURL with
        | some e =>
          simp only [hb, hcomp, hk, hn] at hc; simp at hc
          rcases hc with rfl | rfl | rfl | rfl <;> simp [Call.isUpload] at hup
        | none =>
          cases hcc : w.CreateContainer (containerNameOf orgName repoName) with
          | none =>
            simp only [hb, hcomp, hk, hn, hcc] at hc; simp at hc
            rcases hc with rfl | rfl | rfl | rfl | rfl | rfl <;>
              simp [Call.isUpload, hcomp] at hup ⊢
          | some e =>
            by_cases hh : e.code = some ContainerAlreadyExists
            · simp only [hb, hcomp, hk, hn, hcc, hh, if_true] at hc; simp at hc
              rcases hc with rfl | rfl | rfl | rfl | rfl | rfl <;>
                simp [Call.isUpload, hh, hcomp] at hup ⊢
            · simp only [hb, hcomp, hk, hn, hcc, hh, if_false] at hc; simp at hc
              rcases hc with rfl | rfl | rfl | rfl | rfl <;> simp [Call.isUpload] at hup

/-- The storage stage when every call before the upload succeeded. -/
theorem logToAzureBlobStorage_reaches_upload (w : World) (log : Response)
    (blobURL repoName orgName : String) (id : Int) (body cb : Bytes)
    (hbody : log.Body = .ok body) (hcomp : compress w body = .ok cb)
    (hcred : w.NewDefaultAzureCredential = none) (hclient : w.NewClient blobURL = none)
    (hcreate : w.CreateContainer (containerNameOf orgName repoName) = none ∨
      ∃ e, w.CreateContainer (containerNameOf orgName repoName) = some e ∧
        e.code = some ContainerAlreadyExists) :
    logToAzureBlobStorage w log blobURL repoName orgName id =
      ([Call.ReadAll, Call.Compress body, Call.NewDefaultAzureCredential, Call.NewClient blobURL,
        Call.CreateContainer (containerNameOf orgName repoName),
        Call.UploadBuffer (containerNameOf orgName repoName) (blobNameOf w.Now w.newUUID) cb],
        uploadResult w (containerNameOf orgName repoName) cb) := by
  rw [logToAzureBlobStorage_eq]
  rcases hcreate with hnone | ⟨e, he, hcode⟩
  · simp [hbody, hcomp, hcred, hclient, hnone]
  · simp [hbody, hcomp, hcred, hclient, he, hcode]

/-- The storage stage returns `nil`, an error or nothing else: it has no
pointer dereference. -/
theorem logToAzureBlobStorage_no_panic (w : World) (log : Response)
    (blobURL repoName orgName : String) (id : Int) :
    (logToAzureBlobStorage w log blobURL repoName orgName id).2 ≠ .error Exit.panic := by
  rw [logToAzureBlobStorage_eq]
  unfold uploadResult
  repeat' split
  all_goals simp


/-- A completed run whose every stage before the upload succeeded and whose
run record carries a conclusion, in closed form. -/
theorem Handle_reaches_upload (w : World) (h : WorkflowHandler) (payload : Bytes)
    (ev : WorkflowRunEvent) (o r : String) (id : Int) (body cb : Bytes)
    (hparse : w.Unmarshal payload = .ok ev) (hev : CompletedRunEvent ev o r id)
    (hconc : ∀ run, w.GetWorkflowRunByID o r id = .ok run → run.Conclusion ≠ none)
    (hst : StagesBeforeUploadSucceed w h ev o r id body cb) :
    ∃ url,
      trace (Handle w h payload) =
        [Call.NewInstallationClient (GetInstallationIDFromEvent ev),
          Call.GetWorkflowRunByID o r id, Call.GetWorkflowRunLogs o r id true, Call.HttpGet url,
          Call.ReadAll, Call.Compress body, Call.NewDefaultAzureCredential,
          Call.NewClient (blobURLOf h), Call.CreateContainer (containerNameOf o r),
          Call.UploadBuffer (containerNameOf o r) (blobNameOf w.Now w.newUUID) cb] ∧
      (Handle w h payload).2 =
        match w.UploadBuffer (containerNameOf o r) (blobNameOf w.Now w.newUUID) cb with
        | some e => .error (Exit.error
            (Wrap (Wrap e "failed to upload buffer") "failed to log to Azure Blob Storage"))
        | none => .ok () := by
  obtain ⟨hnic, run, url, log, hrun, hurl, hget, hbody, hcomp, hcred, hclient, hcreate⟩ := hst
  refine ⟨url, ?_⟩
  have hc := hconc run hrun
  obtain ⟨c, hc⟩ := Option.ne_none_iff_exists'.mp hc
  rw [Handle_completed_eq w h payload ev o r id hparse hev, afterClient_eq]
  simp only [hnic, hrun, hc, hurl, hget, trace,
    logToAzureBlobStorage_reaches_upload w log (blobURLOf h) r o id body cb hbody hcomp hcred
      hclient hcreate]
  refine ⟨trivial, ?_⟩
  unfold Eff.wrapErr uploadResult
  cases w.UploadBuffer (containerNameOf o r) (blobNameOf w.Now w.newUUID) cb <;> rfl

/-- In the run of a completed-run event an upload is issued only after every
earlier stage succeeded, and it carries the compressed body. -/
theorem Handle_upload_only_after_all (w : World) (h : WorkflowHandler) (payload : Bytes)
    (ev : WorkflowRunEvent) (o r : String) (id : Int)
    (hparse : w.Unmarshal payload = .ok ev) (hev : CompletedRunEvent ev o r id) :
    ∀ c ∈ trace (Handle w h payload), c.isUpload = true →
      ∃ body cb, StagesBeforeUploadSucceed w h ev o r id body cb ∧
        c = Call.UploadBuffer (containerNameOf o r) (blobNameOf w.Now w.newUUID) cb := by
  rw [Handle_completed_eq w h payload ev o r id hparse hev, afterClient_eq]
  intro c hc hup
  unfold trace at hc
  cases hnic : w.NewInstallationClient (GetInstallationIDFromEvent ev) with
  | some e => simp only [hnic] at hc; simp at hc; subst hc; simp [Call.isUpload] at hup
  | none =>
    simp only [hnic, List.mem_cons] at hc
    rcases hc with rfl | hc
    · simp [Call.isUpload] at hup
    · cases hrun : w.GetWorkflowRunByID o r id with
      | error e => simp only [hrun] at hc; simp at hc; subst hc; simp [Call.isUpload] at hup
      | ok run =>
        cases hcn : run.Conclusion with
        | none => simp only [hrun, hcn] at hc; simp at hc; subst hc; simp [Call.isUpload] at hup
        | some cn =>
          cases hurl : w.GetWorkflowRunLogs o r id true with
          | error e =>
            simp only [hrun, hcn, hurl] at hc; simp at hc
            rcases hc with rfl | rfl <;> simp [Call.isUpload] at hup
          | ok url =>
            cases hget : w.HttpGet url with
            | error e =>
              simp only [hrun, hcn, hurl, hget] at hc; simp at hc
              rcases hc with rfl | rfl | rfl <;> simp [Call.isUpload] at hup
            | ok log =>
              simp only [hrun, hcn, hurl, hget, List.mem_cons] at hc
              rcases hc with rfl | rfl | rfl | hc
              · simp [Call.isUpload] at hup
              · simp [Call.isUpload] at hup
              · simp [Call.isUpload] at hup
              · obtain ⟨body, cb, hbody, hcomp, hcred, hclient, hcreate, rfl⟩ :=
                  logToAzureBlobStorage_upload w log (blobURLOf h) r o id c hc hup
                exact ⟨body, cb, ⟨hnic, run, url, log, hrun, hurl, hget, hbody, hcomp, hcred,
                  hclient, hcreate⟩, rfl⟩

/-- A run of a completed-run event that returns `nil` went through every
stage. -/
theorem Handle_nil_only_after_all (w : World) (h : WorkflowHandler) (payload : Bytes)
    (ev : WorkflowRunEvent) (o r : String) (id : Int)
    (hparse : w.Unmarshal payload = .ok ev) (hev : CompletedRunEvent ev o r id)
    (hnil : returnsNil (Handle w h payload) = true) :
    ∃ body cb, AllStagesSucceed w h ev o r id body cb := by
  rw [Handle_completed_eq w h payload ev o r id hparse hev, afterClient_eq] at hnil
  cases hnic : w.NewInstallationClient (GetInstallationIDFromEvent ev) with
  | some e => simp [hnic, returnsNil] at hnil
  | none =>
    cases hrun : w.GetWorkflowRunByID o r id with
    | error e => simp [hnic, hrun, returnsNil] at hnil
    | ok run =>
      cases hcn : run.Conclusion with
      | none => simp [hnic, hrun, hcn, returnsNil] at hnil
      | some cn =>
        cases hurl : w.GetWorkflowRunLogs o r id true with
        | error e => simp [hnic, hrun, hcn, hurl, returnsNil] at hnil
        | ok url =>
          cases hget : w.HttpGet url with
          | error e => simp [hnic, hrun, hcn, hurl, hget, returnsNil] at hnil
          | ok log =>
            simp only [hnic, hrun, hcn, hurl, hget, returnsNil] at hnil
            rw [logToAzureBlobStorage_eq] at hnil
            unfold Eff.wrapErr uploadResult at hnil
            cases hbody : log.Body with
            | error e => simp [hbody] at hnil
            | ok body =>
              cases hcomp : compress w body with
              | error e => simp [hbody, hcomp] at hnil
              | ok cb =>
                cases hcred : w.NewDefaultAzureCredential with
                | some e => simp [hbody, hcomp, hcred] at hnil
                | none =>
                  cases hclient : w.NewClient (blobURLOf h) with
                  | some e => simp [hbody, hcomp, hcred, hclient] at hnil
                  | none =>
                    cases hup : w.UploadBuffer (containerNameOf o r)
                        (blobNameOf w.Now w.newUUID) cb with
                    | some e =>
                      cases hcc : w.CreateContainer (containerNameOf o r) with
                      | none => simp [hbody, hcomp, hcred, hclient, hcc, hup] at hnil
                      | some e2 =>
                        by_cases hh : e2.code = some ContainerAlreadyExists <;>
                          simp [hbody, hcomp, hcred, hclient, hcc, hup, hh] at hnil
                    | none =>
                      cases hcc : w.CreateContainer (containerNameOf o r) with
                      | none =>
                        exact ⟨body, cb, ⟨hnic, run, url, log, hrun, hurl, hget, hbody, hcomp,
                          hcred, hclient, Or.inl hcc⟩, hup⟩
                      | some e2 =>
                        by_cases hh : e2.code = some ContainerAlreadyExists
                        · exact ⟨body, cb, ⟨hnic, run, url, log, hrun, hurl, hget, hbody, hcomp,
                            hcred, hclient, Or.inr ⟨e2, hcc, hh⟩⟩, hup⟩
                        · simp [hbody, hcomp, hcred, hclient, hcc, hup, hh] at hnil


/-- A completed run whose run record carries a conclusion does not panic. -/
theorem Handle_completed_no_panic (w : World) (h : WorkflowHandler) (payload : Bytes)
    (ev : WorkflowRunEvent) (o r : String) (id : Int)
    (hparse : w.Unmarshal payload = .ok ev) (hev : CompletedRunEvent ev o r id)
    (hconc : ∀ run, w.GetWorkflowRunByID o r id = .ok run → run.Conclusion ≠ none) :
    panics (Handle w h payload) = false := by
  rw [Handle_completed_eq w h payload ev o r id hparse hev, afterClient_eq]
  unfold panics
  cases hnic : w.NewInstallationClient (GetInstallationIDFromEvent ev) with
  | some e => rfl
  | none =>
    cases hrun : w.GetWorkflowRunByID o r id with
    | error e => rfl
    | ok run =>
      cases hcn : run.Conclusion with
      | none => exact absurd hcn (hconc run hrun)
      | some cn =>
        cases hurl : w.GetWorkflowRunLogs o r id true with
        | error e => simp only [hcn]
        | ok url =>
          cases hget : w.HttpGet url with
          | error e => simp only [hcn, hget]
          | ok log =>
            have hnp := logToAzureBlobStorage_no_panic w log (blobURLOf h) r o id
            simp only [hcn, hget, Eff.wrapErr]
            generalize (logToAzureBlobStorage w log (blobURLOf h) r o id).2 = res at hnp
            rcases res with (e | e) | a
            · rfl
            · exact absurd rfl hnp
            · rfl

/-- The outcome of a completed run when the run record returned by a
successful lookup carries a conclusion: `Handle` returns `nil` exactly when
every stage succeeded; then exactly one upload was issued, with the compressed
body; and when a stage before the upload fails, `Handle` returns an error and
no upload was issued. -/
theorem Handle_completed_pipeline (w : World) (h : WorkflowHandler) (payload : Bytes)
    (ev : WorkflowRunEvent) (o r : String) (id : Int)
    (hparse : w.Unmarshal payload = .ok ev) (hev : CompletedRunEvent ev o r id)
    (hconc : ∀ run, w.GetWorkflowRunByID o r id = .ok run → run.Conclusion ≠ none) :
    (returnsNil (Handle w h payload) = true ↔ ∃ body cb, AllStagesSucceed w h ev o r id body cb) ∧
    (∀ body cb, AllStagesSucceed w h ev o r id body cb →
      (trace (Handle w h payload)).filter Call.isUpload =
        [Call.UploadBuffer (containerNameOf o r) (blobNameOf w.Now w.newUUID) cb]) ∧
    ((¬ ∃ body cb, StagesBeforeUploadSucceed w h ev o r id body cb) →
      returnsError (Handle w h payload) = true ∧
      ∀ c ∈ trace (Handle w h payload), c.isUpload = false) := by
  refine ⟨⟨Handle_nil_only_after_all w h payload ev o r id hparse hev, ?_⟩, ?_, ?_⟩
  · rintro ⟨body, cb, hst, hup⟩
    obtain ⟨url, -, hres⟩ := Handle_reaches_upload w h payload ev o r id body cb hparse hev hconc hst
    simp [returnsNil, hres, hup]
  · rintro body cb ⟨hst, -⟩
    obtain ⟨url, htr, -⟩ := Handle_reaches_upload w h payload ev o r id body cb hparse hev hconc hst
    rw [htr]
    simp [Call.isUpload]
  · intro hno
    have hup : ∀ c ∈ trace (Handle w h payload), c.isUpload = false := by
      intro c hc
      cases hu : c.isUpload with
      | false => rfl
      | true =>
        obtain ⟨body, cb, hst, -⟩ :=
          Handle_upload_only_after_all w h payload ev o r id hparse hev c hc hu
        exact absurd ⟨body, cb, hst⟩ hno
    refine ⟨?_, hup⟩
    have hnp := Handle_completed_no_panic w h payload ev o r id hparse hev hconc
    have hnn : returnsNil (Handle w h payload) ≠ true := by
      intro hnil
      obtain ⟨body, cb, hst, -⟩ := Handle_nil_only_after_all w h payload ev o r id hparse hev hnil
      exact hno ⟨body, cb, hst⟩
    unfold returnsNil at hnn
    unfold panics at hnp
    unfold returnsError
    generalize (Handle w h payload).2 = res at hnn hnp
    rcases res with (e | e) | a
    · rfl
    · simp at hnp
    · simp at hnn

/-! ## The log fetch -/

/-- The storage stage always starts by reading the body, and compresses a
body it could read. -/
theorem logToAzureBlobStorage_reads (w : World) (log : Response)
    (blobURL repoName orgName : String) (id : Int) :
    Call.ReadAll ∈ (logToAzureBlobStorage w log blobURL repoName orgName id).1 ∧
    ∀ body, log.Body = .ok body →
      Call.Compress body ∈ (logToAzureBlobStorage w log blobURL repoName orgName id).1 := by
  rw [logToAzureBlobStorage_eq]
  refine ⟨?_, ?_⟩
  · repeat' split
    all_goals simp
  · intro body hbody
    simp only [hbody]
    repeat' split
    all_goals simp

/-- C4, amended. The run stops at the fetch exactly when `http.Get` itself
returns an error: then `Handle` returns that error, wrapped, and the body is
not read, compressed or uploaded.  When a response arrives its status code is
never examined: whatever the status, the body is read, a body that could be
read is compressed, and when the later calls succeed the compressed body is
uploaded and `Handle` returns `nil`.  The calls and the result of `Handle` are
the same whatever status codes the responses carry. -/
theorem Handle_fetch_ignores_status (w : World) (h : WorkflowHandler) (payload : Bytes) :
    (∀ f : Nat → Nat, Handle (w.withStatus f) h payload = Handle w h payload) ∧
    ∀ ev o r id run conclusion url,
      w.Unmarshal payload = .ok ev → CompletedRunEvent ev o r id →
      w.NewInstallationClient (GetInstallationIDFromEvent ev) = none →
      w.GetWorkflowRunByID o r id = .ok run → run.Conclusion = some conclusion →
      w.GetWorkflowRunLogs o r id true = .ok url →
      (∀ e, w.HttpGet url = .error e →
        (Handle w h payload).2 =
          .error (Exit.error (Wrap e "failed to get workflow run logs")) ∧
        trace (Handle w h payload) =
          [Call.NewInstallationClient (GetInstallationIDFromEvent ev),
            Call.GetWorkflowRunByID o r id, Call.GetWorkflowRunLogs o r id true,
            Call.HttpGet url] ∧
        ∀ c ∈ trace (Handle w h payload), c.isCompress = false ∧ c.isUpload = false) ∧
      (Call.ReadAll ∈ trace (Handle w h payload) ↔ ∃ log, w.HttpGet url = .ok log) ∧
      (∀ log, w.HttpGet url = .ok log →
        trace (Handle w h payload) =
          [Call.NewInstallationClient (GetInstallationIDFromEvent ev),
            Call.GetWorkflowRunByID o r id, Call.GetWorkflowRunLogs o r id true,
            Call.HttpGet url] ++ trace (logToAzureBlobStorage w log (blobURLOf h) r o id) ∧
        (∀ body, log.Body = .ok body → Call.Compress body ∈ trace (Handle w h payload)) ∧
        ∀ body cb, log.Body = .ok body → compress w body = .ok cb →
          w.NewDefaultAzureCredential = none → w.NewClient (blobURLOf h) = none →
          (w.CreateContainer (containerNameOf o r) = none ∨
            ∃ e, w.CreateContainer (containerNameOf o r) = some e ∧
              e.code = some ContainerAlreadyExists) →
          w.UploadBuffer (containerNameOf o r) (blobNameOf w.Now w.newUUID) cb = none →
          returnsNil (Handle w h payload) = true ∧
          (trace (Handle w h payload)).filter Call.isUpload =
            [Call.UploadBuffer (containerNameOf o r) (blobNameOf w.Now w.newUUID) cb]) := by
  refine ⟨fun f => Handle_withStatus w h payload f, ?_⟩
  intro ev o r id run conclusion url hparse hev hnic hrun hcn hurl
  have hH := Handle_completed_eq w h payload ev o r id hparse hev
  rw [afterClient_eq] at hH
  simp only [hnic, hrun, hcn, hurl] at hH
  have herr : ∀ e, w.HttpGet url = .error e →
      Handle w h payload =
        ([Call.NewInstallationClient (GetInstallationIDFromEvent ev),
          Call.GetWorkflowRunByID o r id, Call.GetWorkflowRunLogs o r id true,
          Call.HttpGet url],
          .error (Exit.error (Wrap e "failed to get workflow run logs"))) := by
    intro e hget
    rw [hH]
    simp only [hget]
  have hok : ∀ log, w.HttpGet url = .ok log →
      Handle w h payload =
        (Call.NewInstallationClient (GetInstallationIDFromEvent ev) ::
          Call.GetWorkflowRunByID o r id :: Call.GetWorkflowRunLogs o r id true ::
          Call.HttpGet url :: (logToAzureBlobStorage w log (blobURLOf h) r o id).1,
          (Eff.wrapErr (logToAzureBlobStorage w log (blobURLOf h) r o id)
            "failed to log to Azure Blob Storage").2) := by
    intro log hget
    rw [hH]
    simp only [hget]
  refine ⟨?_, ?_, ?_⟩
  · intro e hget
    rw [herr e hget]
    refine ⟨rfl, rfl, ?_⟩
    intro c hc
    simp [trace] at hc
    rcases hc with rfl | rfl | rfl | rfl <;> exact ⟨rfl, rfl⟩
  · constructor
    · intro hmem
      cases hget : w.HttpGet url with
      | ok log => exact ⟨log, rfl⟩
      | error e =>
        rw [herr e hget] at hmem
        simp [trace] at hmem
    · rintro ⟨log, hget⟩
      rw [hok log hget]
      simp only [trace, List.mem_cons]
      exact Or.inr (Or.inr (Or.inr (Or.inr
        (logToAzureBlobStorage_reads w log (blobURLOf h) r o id).1)))
  · intro log hget
    rw [hok log hget]
    refine ⟨rfl, ?_, ?_⟩
    · intro body hbody
      simp only [trace, List.mem_cons]
      exact Or.inr (Or.inr (Or.inr (Or.inr
        ((logToAzureBlobStorage_reads w log (blobURLOf h) r o id).2 body hbody))))
    · intro body cb hbody hcomp hcred hclient hcreate hup
      rw [logToAzureBlobStorage_reaches_upload w log (blobURLOf h) r o id body cb hbody hcomp
        hcred hclient hcreate]
      simp [returnsNil, Eff.wrapErr, uploadResult, hup, trace, Call.isUpload]

/-- A download answering status 500 with a readable body, and a download that
times out. -/
theorem Handle_fetch_ignores_status_witness :
    returnsNil (Handle (happyWorld acmeEvent successRun 500) archiver []) = true ∧
    (trace (Handle (happyWorld acmeEvent successRun 500) archiver [])).filter Call.isUpload =
      [Call.UploadBuffer (containerNameOf "acme" "widgets")
        (blobNameOf (happyWorld acmeEvent successRun 500).Now
          (happyWorld acmeEvent successRun 500).newUUID)
        ([31, 139, 8, 0, 0, 0, 0, 0, 0, 255] ++ (helloWorld ++ [0, 0, 0, 0]))] ∧
    (Handle { happyWorld acmeEvent successRun 200 with
        HttpGet := fun _ => .error ⟨"dial tcp: timeout", none⟩ } archiver []).2 =
      .error (Exit.error (Wrap ⟨"dial tcp: timeout", none⟩ "failed to get workflow run logs")) :=
  have hok := ((Handle_fetch_ignores_status (happyWorld acmeEvent successRun 500) archiver []).2
      acmeEvent "acme" "widgets" 42 successRun "success" "https://logs.example/42" rfl
      ⟨rfl, ⟨_, _, rfl, rfl, rfl, rfl⟩, _, rfl, rfl⟩ rfl rfl rfl rfl).2.2
      { StatusCode := 500, Body := .ok helloWorld } rfl
  have hnil := hok.2.2 helloWorld
      ([31, 139, 8, 0, 0, 0, 0, 0, 0, 255] ++ (helloWorld ++ [0, 0, 0, 0]))
      rfl rfl rfl rfl (Or.inl rfl) rfl
  ⟨hnil.1, hnil.2,
   (((Handle_fetch_ignores_status
      { happyWorld acmeEvent successRun 200 with
        HttpGet := fun _ => .error ⟨"dial tcp: timeout", none⟩ } archiver []).2
      acmeEvent "acme" "widgets" 42 successRun "success" "https://logs.example/42" rfl
      ⟨rfl, ⟨_, _, rfl, rfl, rfl, rfl⟩, _, rfl, rfl⟩ rfl rfl rfl rfl).1
      ⟨"dial tcp: timeout", none⟩ rfl).1⟩

/-! ## The container name -/

/-- C6, as stated, fails: for owner `Acme` and repository `Widgets` the
container created and uploaded to is `Acme-Widgets`, which has uppercase
letters. -/
theorem container_name_keeps_case :
    Call.CreateContainer "Acme-Widgets" ∈ trace (Handle (happyWorld
      { acmeEvent with
        Repo := some { Owner := some { Login := some "Acme" }, Name := some "Widgets" } }
      successRun 200) archiver []) ∧
    Call.UploadBuffer "Acme-Widgets" "20231114231320-123e4567-e89b-12d3-a456-426614174000.log.gz"
      ([31, 139, 8, 0, 0, 0, 0, 0, 0, 255] ++ (helloWorld ++ [0, 0, 0, 0]))
      ∈ trace (Handle (happyWorld
      { acmeEvent with
        Repo := some { Owner := some { Login := some "Acme" }, Name := some "Widgets" } }
      successRun 200) archiver []) ∧
    ¬ noUpper "Acme-Widgets" := by
  refine ⟨by decide, by decide, ?_⟩
  intro hno
  have := hno 'A' (by decide)
  revert this
  decide

/-- C6, amended. For a completed-run event with owner login `o` and repository
name `r`, every container creation and every upload of the run addresses the
container `o-r`, owner first, with the case of `o` and `r` left as it is; for
`acme` and `widgets` that is `acme-widgets`, and the name has no uppercase
letter when `o` and `r` have none. -/
theorem Handle_container_name (w : World) (h : WorkflowHandler) (payload : Bytes)
    (ev : WorkflowRunEvent) (o r : String) (id : Int)
    (hparse : w.Unmarshal payload = .ok ev) (hev : CompletedRunEvent ev o r id) :
    (∀ c ∈ trace (Handle w h payload), ∀ n, c.containerOf = some n → n = o ++ "-" ++ r) ∧
    containerNameOf "acme" "widgets" = "acme-widgets" ∧
    (noUpper o → noUpper r → noUpper (o ++ "-" ++ r)) := by
  refine ⟨?_, by decide, ?_⟩
  · intro c hc n hn
    exact (Handle_storage_calls w h payload ev o r id hparse hev c hc).1 n hn
  · intro ho hr c hc
    simp only [String.toList, String.data_append, List.mem_append] at hc
    rcases hc with (hc | hc) | hc
    · exact ho c hc
    · simp at hc; subst hc; decide
    · exact hr c hc

/-- The run of the event of repository `acme/widgets`. -/
theorem Handle_container_name_witness :
    (∀ c ∈ trace (Handle (happyWorld acmeEvent successRun 200) archiver []),
      ∀ n, c.containerOf = some n → n = "acme" ++ "-" ++ "widgets") ∧
    Call.CreateContainer "acme-widgets" ∈
      trace (Handle (happyWorld acmeEvent successRun 200) archiver []) :=
  ⟨(Handle_container_name (happyWorld acmeEvent successRun 200) archiver [] acmeEvent
      "acme" "widgets" 42 rfl ⟨rfl, ⟨_, _, rfl, rfl, rfl, rfl⟩, _, rfl, rfl⟩).1,
    by decide⟩


/-! ## The blob name -/

theorem digit_isDigit (d : Nat) : (digit d).isDigit = true := by
  have h : d % 10 < 10 := Nat.mod_lt _ (by decide)
  unfold digit
  generalize d % 10 = k at h
  interval_cases k <;> decide

theorem civil_month_range (z : Int) :
    1 ≤ (civilFromDays z).2.1 ∧ (civilFromDays z).2.1 ≤ 12 := by
  simp only [civilFromDays]
  split <;> omega

theorem civil_day_range (z : Int) :
    1 ≤ (civilFromDays z).2.2 ∧ (civilFromDays z).2.2 ≤ 31 := by
  simp only [civilFromDays]
  omega

/-- A two-digit field. -/
theorem appendInt_two (x : Int) (h0 : 0 ≤ x) (h1 : x < 100) :
    appendInt x 2 = [digit (x.natAbs / 10), digit x.natAbs] := by
  have hu : x.natAbs < 100 := by omega
  have hs : ¬ x < 0 := by omega
  simp [appendInt, hu, hs]

/-- A four-digit field. -/
theorem appendInt_four (x : Int) (h0 : 0 ≤ x) (h1 : x ≤ 9999) :
    appendInt x 4 =
      [digit (x.natAbs / 1000), digit (x.natAbs / 100), digit (x.natAbs / 10),
        digit x.natAbs] := by
  have hu : x.natAbs < 10000 := by omega
  have hs : ¬ x < 0 := by omega
  simp [appendInt, hu, hs]

/-- The timestamp of a four-digit year, digit by digit. -/
theorem Format_digits (t : Time) (hy0 : 0 ≤ t.Year) (hy1 : t.Year ≤ 9999) :
    t.Format.toList =
      [digit (t.Year.natAbs / 1000), digit (t.Year.natAbs / 100), digit (t.Year.natAbs / 10),
        digit t.Year.natAbs,
        digit (t.Month.natAbs / 10), digit t.Month.natAbs,
        digit (t.Day.natAbs / 10), digit t.Day.natAbs,
        digit (t.Hour.natAbs / 10), digit t.Hour.natAbs,
        digit (t.Minute.natAbs / 10), digit t.Minute.natAbs,
        digit (t.Second.natAbs / 10), digit t.Second.natAbs] := by
  have hm := civil_month_range (t.wall / 86400)
  have hd := civil_day_range (t.wall / 86400)
  have hh : 0 ≤ t.Hour ∧ t.Hour < 100 := by unfold Time.Hour; omega
  have hmi : 0 ≤ t.Minute ∧ t.Minute < 100 := by unfold Time.Minute; omega
  have hsec : 0 ≤ t.Second ∧ t.Second < 100 := by unfold Time.Second; omega
  have hm' : 0 ≤ t.Month ∧ t.Month < 100 := by unfold Time.Month; omega
  have hd' : 0 ≤ t.Day ∧ t.Day < 100 := by unfold Time.Day; omega
  simp only [Time.Format, String.toList, appendInt_four t.Year hy0 hy1,
    appendInt_two t.Month hm'.1 hm'.2, appendInt_two t.Day hd'.1 hd'.2,
    appendInt_two t.Hour hh.1 hh.2, appendInt_two t.Minute hmi.1 hmi.2,
    appendInt_two t.Second hsec.1 hsec.2]
  rfl

theorem Format_length (t : Time) (hy0 : 0 ≤ t.Year) (hy1 : t.Year ≤ 9999) :
    t.Format.toList.length = 14 := by
  rw [Format_digits t hy0 hy1]; rfl

theorem Format_all_digits (t : Time) (hy0 : 0 ≤ t.Year) (hy1 : t.Year ≤ 9999) :
    ∀ c ∈ t.Format.toList, c.isDigit = true := by
  rw [Format_digits t hy0 hy1]
  intro c hc
  simp only [List.mem_cons, List.mem_singleton, List.not_mem_nil, or_false] at hc
  rcases hc with rfl | rfl | rfl | rfl | rfl | rfl | rfl | rfl | rfl | rfl | rfl | rfl | rfl | rfl <;>
    exact digit_isDigit _

theorem blobNameOf_toList (now : Time) (uuid : String) :
    (blobNameOf now uuid).toList =
      now.Format.toList ++ ('-' :: uuid.toList ++ ".log.gz".toList) := by
  simp [blobNameOf, String.toList, String.data_append]

/-- The timestamp only depends on the wall clock of the carried location. -/
theorem Format_wall (t : Time) : t.Format = (Time.mk (t.unix + t.offset) 0).Format := by
  simp [Time.Format, Time.Year, Time.Month, Time.Day, Time.Hour, Time.Minute, Time.Second,
    Time.wall]


/-- Blob names of four-digit years and canonical UUIDs are equal only when
their UUIDs are. -/
theorem blobNameOf_uuid_inj (now now' : Time) (uuid uuid' : String)
    (hy0 : 0 ≤ now.Year) (hy1 : now.Year ≤ 9999) (hy0' : 0 ≤ now'.Year) (hy1' : now'.Year ≤ 9999)
    (hu : CanonicalUUID uuid) (hu' : CanonicalUUID uuid')
    (heq : blobNameOf now' uuid' = blobNameOf now uuid) : uuid' = uuid := by
  have hl : (blobNameOf now' uuid').toList = (blobNameOf now uuid).toList := by rw [heq]
  rw [blobNameOf_toList, blobNameOf_toList] at hl
  have hlen : now'.Format.toList.length = now.Format.toList.length := by
    rw [Format_length now hy0 hy1, Format_length now' hy0' hy1']
  have h2 := (List.append_inj hl hlen).2
  simp only [List.cons_append, List.cons.injEq, true_and] at h2
  have h3 := (List.append_inj h2 (by rw [hu.1, hu'.1])).1
  exact String.ext h3

/-- C10. For a clock reading with a year in 0..9999 and a UUID of 36
characters from `[0-9a-f-]`, the blob name is 14 decimal digits, a hyphen, the
UUID and `.log.gz`, 58 characters in all, and matches
`^\d{14}-[0-9a-f-]{36}\.log\.gz$`; that is the name every upload of
`logToAzureBlobStorage` carries; names built from different UUIDs differ, equal
timestamps or not. -/
theorem blobName_shape (now : Time) (uuid : String)
    (hy0 : 0 ≤ now.Year) (hy1 : now.Year ≤ 9999) (hu : CanonicalUUID uuid) :
    (∃ ds : List Char, ds.length = 14 ∧ (∀ c ∈ ds, c.isDigit = true) ∧
      (blobNameOf now uuid).toList = ds ++ ('-' :: uuid.toList ++ ".log.gz".toList)) ∧
    (blobNameOf now uuid).length = 58 ∧
    matchesBlobPattern (blobNameOf now uuid) = true ∧
    (∀ (w : World) (log : Response) (blobURL repoName orgName : String) (id : Int),
      w.Now = now → w.newUUID = uuid →
      ∀ c ∈ trace (logToAzureBlobStorage w log blobURL repoName orgName id),
        ∀ n b d, c = Call.UploadBuffer n b d → matchesBlobPattern b = true) ∧
    ∀ (now' : Time) (uuid' : String), 0 ≤ now'.Year → now'.Year ≤ 9999 → CanonicalUUID uuid' →
      uuid' ≠ uuid → blobNameOf now' uuid' ≠ blobNameOf now uuid := by
  have hlen := Format_length now hy0 hy1
  have hdig := Format_all_digits now hy0 hy1
  have e1 := blobNameOf_toList now uuid
  have hl58 : (blobNameOf now uuid).toList.length = 58 := by
    rw [e1]
    simp only [List.length_append, List.length_cons, hlen, hu.1]
    rfl
  have h14 : (blobNameOf now uuid).toList.take 14 = now.Format.toList := by
    rw [e1]; exact List.take_left' hlen
  have d14 : (blobNameOf now uuid).toList.drop 14 = '-' :: uuid.toList ++ ".log.gz".toList := by
    rw [e1]; exact List.drop_left' hlen
  have d15 : (blobNameOf now uuid).toList.drop 15 = uuid.toList ++ ".log.gz".toList := by
    have h : (blobNameOf now uuid).toList.drop 15 = ((blobNameOf now uuid).toList.drop 14).drop 1 := by
      rw [List.drop_drop]
    rw [h, d14]; rfl
  have t36 : ((blobNameOf now uuid).toList.drop 15).take 36 = uuid.toList := by
    rw [d15]; exact List.take_left' hu.1
  have d51 : (blobNameOf now uuid).toList.drop 51 = ".log.gz".toList := by
    have h : (blobNameOf now uuid).toList.drop 51 = ((blobNameOf now uuid).toList.drop 15).drop 36 := by
      rw [List.drop_drop]
    rw [h, d15]; exact List.drop_left' hu.1
  have hmatch : matchesBlobPattern (blobNameOf now uuid) = true := by
    unfold matchesBlobPattern
    rw [hl58, h14, d14, t36, d51]
    simp only [Bool.and_eq_true, List.all_eq_true]
    exact ⟨⟨⟨⟨by decide, hdig⟩, by simp⟩, hu.2⟩, by simp⟩
  refine ⟨⟨now.Format.toList, hlen, hdig, e1⟩, hl58, hmatch, ?_, ?_⟩
  · intro w log blobURL repoName orgName id hnow huuid c hc n b d hcall
    have hb := (logToAzureBlobStorage_calls w log blobURL repoName orgName id c hc).2 n b d hcall
    rw [hb, hnow, huuid]
    exact hmatch
  · intro now' uuid' hy0' hy1' hu' hne heq
    exact hne (blobNameOf_uuid_inj now now' uuid uuid' hy0 hy1 hy0' hy1' hu hu' heq)

/-- The blob name of the instant 1700000000 in a zone one hour east of UTC. -/
theorem blobName_shape_witness :
    matchesBlobPattern (blobNameOf ⟨1700000000, 3600⟩ "123e4567-e89b-12d3-a456-426614174000") =
      true ∧
    (blobNameOf ⟨1700000000, 3600⟩ "123e4567-e89b-12d3-a456-426614174000").length = 58 :=
  have h := blobName_shape ⟨1700000000, 3600⟩ "123e4567-e89b-12d3-a456-426614174000"
    (by decide) (by decide) ⟨by decide, by decide⟩
  ⟨h.2.2.1, h.2.1⟩

/-- C9, as stated, fails: at the instant 1700000000 (2023-11-14 22:13:20 UTC)
in a zone one hour east of UTC the blob name uploaded starts with
`20231114231320`, the local wall clock, not with the UTC rendering
`20231114221320`. -/
theorem blobName_timestamp_not_UTC :
    Call.UploadBuffer "acme-widgets" "20231114231320-123e4567-e89b-12d3-a456-426614174000.log.gz"
      ([31, 139, 8, 0, 0, 0, 0, 0, 0, 255] ++ (helloWorld ++ [0, 0, 0, 0]))
      ∈ trace (Handle (happyWorld acmeEvent successRun 200) archiver []) ∧
    (happyWorld acmeEvent successRun 200).Now.UTC.Format = "20231114221320" ∧
    (blobNameOf (happyWorld acmeEvent successRun 200).Now
        (happyWorld acmeEvent successRun 200).newUUID).toList.take 14 ≠
      (happyWorld acmeEvent successRun 200).Now.UTC.Format.toList := by
  refine ⟨by decide, by decide, by decide⟩

/-- Year and day of the year within a 400-year era, in range. -/
theorem doy_bounds (a e f g b c d : Int) (h0 : 0 ≤ a) (h1 : a ≤ 146096)
    (he : e = a / 1460) (hf : f = a / 36524) (hg : g = a / 146096)
    (hb : b = (a - e + f - g) / 365) (hc : c = b / 4) (hd : d = b / 100) :
    0 ≤ b ∧ b ≤ 399 ∧ 0 ≤ a - (365 * b + c - d) ∧ a - (365 * b + c - d) ≤ 365 := by
  have hf0 : 0 ≤ f := by omega
  have hf1 : f ≤ 4 := by omega
  have hg0 : 0 ≤ g := by omega
  have hg1 : g ≤ 1 := by omega
  have hb0 : 0 ≤ b := by omega
  have hb1 : b ≤ 399 := by omega
  have hd0 : 0 ≤ d := by omega
  have hd1 : d ≤ 3 := by omega
  interval_cases f <;> interval_cases g <;> interval_cases d <;> omega

/-- The civil date determines the day. -/
theorem daysFromCivil_civilFromDays (z : Int) :
    daysFromCivil (civilFromDays z).1 (civilFromDays z).2.1 (civilFromDays z).2.2 = z := by
  have hz : z + 719468 = (z + 719468) / 146097 * 146097 + (z + 719468) % 146097 := by omega
  have hd0 : 0 ≤ (z + 719468) % 146097 := by omega
  have hd1 : (z + 719468) % 146097 ≤ 146096 := by omega
  obtain ⟨hy0, hy1, hdoy0, hdoy1⟩ := doy_bounds ((z + 719468) % 146097) _ _ _ _ _ _ hd0 hd1
    rfl rfl rfl rfl rfl rfl
  simp only [civilFromDays, daysFromCivil]
  generalize (z + 719468) / 146097 = era at *
  generalize (z + 719468) % 146097 = doe at *
  generalize (doe - doe / 1460 + doe / 36524 - doe / 146096) / 365 = yoe at *
  generalize hdoy : doe - (365 * yoe + yoe / 4 - yoe / 100) = doy at *
  have hmp0 : 0 ≤ (5 * doy + 2) / 153 := by omega
  have hmp1 : (5 * doy + 2) / 153 ≤ 11 := by omega
  generalize hmp : (5 * doy + 2) / 153 = mp at *
  have h1 : (yoe + era * 400) / 400 = era := by omega
  have h2 : (yoe + era * 400) % 400 = yoe := by omega
  have h3 : (yoe + era * 400 + 1 - 1) / 400 = era := by omega
  have h4 : (yoe + era * 400 + 1 - 1) % 400 = yoe := by omega
  by_cases hlt : mp < 10
  · have hm : ¬ mp + 3 ≤ 2 := by omega
    have hm2 : mp + 3 > 2 := by omega
    simp only [hlt, if_true, hm, if_false, hm2, h1, h2]
    omega
  · have hm : mp - 9 ≤ 2 := by omega
    have hm2 : ¬ mp - 9 > 2 := by omega
    simp only [hlt, if_false, hm, if_true, hm2, h3, h4]
    omega

theorem digit_inj (a b : Nat) (hab : digit a = digit b) : a % 10 = b % 10 := by
  have ha : a % 10 < 10 := Nat.mod_lt _ (by decide)
  have hb : b % 10 < 10 := Nat.mod_lt _ (by decide)
  unfold digit at hab
  generalize a % 10 = x at *
  generalize b % 10 = y at *
  interval_cases x <;> interval_cases y <;> first | rfl | (exact absurd hab (by decide))

theorem four_digits_inj (x y : Int) (hx0 : 0 ≤ x) (hx1 : x ≤ 9999) (hy0 : 0 ≤ y)
    (hy1 : y ≤ 9999) (h3 : x.natAbs / 1000 % 10 = y.natAbs / 1000 % 10)
    (h2 : x.natAbs / 100 % 10 = y.natAbs / 100 % 10)
    (h1 : x.natAbs / 10 % 10 = y.natAbs / 10 % 10)
    (h0 : x.natAbs % 10 = y.natAbs % 10) : x = y := by
  omega

theorem two_digits_inj (x y : Int) (hx0 : 0 ≤ x) (hx1 : x < 100) (hy0 : 0 ≤ y)
    (hy1 : y < 100) (h1 : x.natAbs / 10 % 10 = y.natAbs / 10 % 10)
    (h0 : x.natAbs % 10 = y.natAbs % 10) : x = y := by
  omega

theorem wall_of_parts (a b : Int) (hd : a / 86400 = b / 86400)
    (hH : a % 86400 / 3600 = b % 86400 / 3600) (hN : a % 3600 / 60 = b % 3600 / 60)
    (hS : a % 60 = b % 60) : a = b := by
  omega

/-- Timestamps of four-digit years are equal only for equal wall clocks. -/
theorem Format_inj (s t : Time) (hs0 : 0 ≤ s.Year) (hs1 : s.Year ≤ 9999)
    (ht0 : 0 ≤ t.Year) (ht1 : t.Year ≤ 9999) (heq : s.Format = t.Format) :
    s.wall = t.wall := by
  have hl : s.Format.toList = t.Format.toList := by rw [heq]
  rw [Format_digits s hs0 hs1, Format_digits t ht0 ht1] at hl
  simp only [List.cons.injEq, and_true] at hl
  obtain ⟨y3, y2, y1, y0, m1, m0, d1, d0, h1, h0, n1, n0, c1, c0⟩ := hl
  have hms := civil_month_range (s.wall / 86400)
  have hmt := civil_month_range (t.wall / 86400)
  have hds := civil_day_range (s.wall / 86400)
  have hdt := civil_day_range (t.wall / 86400)
  have hY : s.Year = t.Year :=
    four_digits_inj _ _ hs0 hs1 ht0 ht1 (digit_inj _ _ y3) (digit_inj _ _ y2)
      (digit_inj _ _ y1) (digit_inj _ _ y0)
  have hM : s.Month = t.Month :=
    two_digits_inj _ _ (by unfold Time.Month; omega) (by unfold Time.Month; omega)
      (by unfold Time.Month; omega) (by unfold Time.Month; omega)
      (digit_inj _ _ m1) (digit_inj _ _ m0)
  have hD : s.Day = t.Day :=
    two_digits_inj _ _ (by unfold Time.Day; omega) (by unfold Time.Day; omega)
      (by unfold Time.Day; omega) (by unfold Time.Day; omega)
      (digit_inj _ _ d1) (digit_inj _ _ d0)
  have hH : s.Hour = t.Hour :=
    two_digits_inj _ _ (by unfold Time.Hour; omega) (by unfold Time.Hour; omega)
      (by unfold Time.Hour; omega) (by unfold Time.Hour; omega)
      (digit_inj _ _ h1) (digit_inj _ _ h0)
  have hN : s.Minute = t.Minute :=
    two_digits_inj _ _ (by unfold Time.Minute; omega) (by unfold Time.Minute; omega)
      (by unfold Time.Minute; omega) (by unfold Time.Minute; omega)
      (digit_inj _ _ n1) (digit_inj _ _ n0)
  have hS : s.Second = t.Second :=
    two_digits_inj _ _ (by unfold Time.Second; omega) (by unfold Time.Second; omega)
      (by unfold Time.Second; omega) (by unfold Time.Second; omega)
      (digit_inj _ _ c1) (digit_inj _ _ c0)
  have hdays : s.wall / 86400 = t.wall / 86400 := by
    rw [← daysFromCivil_civilFromDays (s.wall / 86400),
      ← daysFromCivil_civilFromDays (t.wall / 86400)]
    unfold Time.Year at hY
    unfold Time.Month at hM
    unfold Time.Day at hD
    rw [hY, hM, hD]
  exact wall_of_parts _ _ hdays hH hN hS

/-- C9, amended. The timestamp component of the generated blob name is the
current instant on the wall clock of the local time zone of the process: for
every instant and local offset with a local year in 0..9999, the first 14
characters of the blob name, which is the name every upload of
`logToAzureBlobStorage` carries, are the YYYYMMDDHHMMSS rendering of the instant
shifted by the local offset.  They are the UTC rendering of the instant when
that offset is zero and, the UTC year being in 0..9999 too, only then; two
readings of one instant in zones of different offsets give different
timestamps. -/
theorem blobName_timestamp_local (w : World) (hy0 : 0 ≤ w.Now.Year) (hy1 : w.Now.Year ≤ 9999) :
    (blobNameOf w.Now w.newUUID).toList.take 14 =
      (Time.mk (w.nowUnix + w.localOffset) 0).UTC.Format.toList ∧
    (w.localOffset = 0 →
      (blobNameOf w.Now w.newUUID).toList.take 14 = w.Now.UTC.Format.toList) ∧
    (0 ≤ w.Now.UTC.Year → w.Now.UTC.Year ≤ 9999 →
      (blobNameOf w.Now w.newUUID).toList.take 14 = w.Now.UTC.Format.toList →
      w.localOffset = 0) ∧
    (∀ v : World, 0 ≤ v.Now.Year → v.Now.Year ≤ 9999 → v.nowUnix = w.nowUnix →
      v.localOffset ≠ w.localOffset →
      (blobNameOf v.Now v.newUUID).toList.take 14 ≠
        (blobNameOf w.Now w.newUUID).toList.take 14) ∧
    ∀ (log : Response) (blobURL repoName orgName : String) (id : Int),
      ∀ c ∈ trace (logToAzureBlobStorage w log blobURL repoName orgName id),
        ∀ n b d, c = Call.UploadBuffer n b d → b = blobNameOf w.Now w.newUUID := by
  have h14 : (blobNameOf w.Now w.newUUID).toList.take 14 = w.Now.Format.toList := by
    rw [blobNameOf_toList]; exact List.take_left' (Format_length w.Now hy0 hy1)
  have hw : w.Now.Format = (Time.mk (w.nowUnix + w.localOffset) 0).Format := Format_wall w.Now
  refine ⟨by rw [h14, hw]; rfl, ?_, ?_, ?_, ?_⟩
  · intro h0
    rw [h14, hw, h0]
    simp [Time.UTC, World.Now]
  · intro hu0 hu1 heq
    rw [h14] at heq
    have hwall := Format_inj w.Now w.Now.UTC hy0 hy1 hu0 hu1 (String.ext heq)
    simp only [Time.wall, Time.UTC, World.Now] at hwall
    omega
  · intro v hv0 hv1 hunix hoff heq
    have hv14 : (blobNameOf v.Now v.newUUID).toList.take 14 = v.Now.Format.toList := by
      rw [blobNameOf_toList]; exact List.take_left' (Format_length v.Now hv0 hv1)
    rw [hv14, h14] at heq
    have hwall := Format_inj v.Now w.Now hv0 hv1 hy0 hy1 (String.ext heq)
    simp only [Time.wall, World.Now] at hwall
    omega
  · intro log blobURL repoName orgName id c hc n b d hcall
    exact (logToAzureBlobStorage_calls w log blobURL repoName orgName id c hc).2 n b d hcall

/-- The instant 1700000000 in a zone one hour east of UTC, against the same
instant read in UTC. -/
theorem blobName_timestamp_local_witness :
    (blobNameOf (happyWorld acmeEvent successRun 200).Now
        (happyWorld acmeEvent successRun 200).newUUID).toList.take 14 =
      (Time.mk (1700000000 + 3600) 0).UTC.Format.toList ∧
    (blobNameOf { happyWorld acmeEvent successRun 200 with localOffset := 0 }.Now
        (happyWorld acmeEvent successRun 200).newUUID).toList.take 14 ≠
      (blobNameOf (happyWorld acmeEvent successRun 200).Now
        (happyWorld acmeEvent successRun 200).newUUID).toList.take 14 :=
  ⟨(blobName_timestamp_local (happyWorld acmeEvent successRun 200) (by decide) (by decide)).1,
   (blobName_timestamp_local (happyWorld acmeEvent successRun 200) (by decide)
      (by decide)).2.2.2.1 { happyWorld acmeEvent successRun 200 with localOffset := 0 }
      (by decide) (by decide) rfl (by decide)⟩

end WorkflowArchiver
